import Mathlib

/-!
Verification of the `zuri_nbt` NBT (Named Binary Tag) library.

This file gives a shallow embedding of the library's data model and codec and
proves (or refutes) the frozen claims about them.

Conventions of the embedding:
* A byte stream is a `List Nat`, each entry a byte value (`< 256`); writers
  only ever emit values `< 256` (each primitive writer reduces its argument
  mod 256 exactly where the Rust code truncates to `u8`).
* Machine integers (`i8`/`i16`/`i32`/`i64`, `u32`/`u64`) are represented by
  their unsigned bit pattern, a `Nat` below `2^w`.  A signed value `x < 0`
  corresponds to the pattern `2^w + x`; the sign test `x < 0` of the source
  becomes `2^(w-1) ≤ pattern`, and `!u` (bitwise complement on `w` bits)
  becomes `2^w - 1 - u`.
* Floats are carried as their raw bit patterns (the codec only moves their
  bytes, it never does float arithmetic).
* Rust `String` values are sequences of Unicode scalar values, `List Nat`.
* Fallible operations return `Except (ErrorPath E) α` mirroring the
  `Result<_, ErrorPath<_>>` of the source; a writer returns the bytes it
  appended to the buffer.
* The recursive tag reader takes an explicit fuel argument bounding the
  recursion depth; fuel is an artifact of totality (the Rust recursion is
  bounded by the input), and round-trip/independence statements quantify over
  it or instantiate it with `input length + 1`, which concrete evaluations
  show is sufficient.
-/

namespace ZuriNbt

/-- The three wire encodings of `src/encoding.rs`:
`BigEndian`, `LittleEndian`, `NetworkLittleEndian`. -/
inductive Enc where
  | be
  | le
  | nle
deriving DecidableEq

/-- `err::PathPart`.  Map keys are Rust strings, i.e. scalar-value lists. -/
inductive PathPart where
  | mapKey (k : List Nat)
  | field (name : List Nat)
  | tupleField (i : Nat)
  | element (i : Nat)
deriving DecidableEq

/-- `err::ReadError`.  `eof` stands for the `Io` variant produced by a short
read; `seqLengthViolationR max got` carries the `usize` values the source
passes (`got` is the `as usize` cast of the negative length, i.e. its 64-bit
sign extension). -/
inductive ReadError where
  | eof
  | unknownTagType (id : Nat)
  | unexpectedTagR (expected found : Nat)
  | seqLengthViolationR (max got : Nat)
  | invalidString (bytes : List Nat)
  | custom (msg : String)
deriving DecidableEq

/-- `NBTTagType` (`src/lib.rs`). -/
inductive NBTTagType where
  | Byte
  | Short
  | Int
  | Long
  | Float
  | Double
  | String
  | Compound
  | List
  | ByteArray
  | IntArray
  | LongArray
deriving DecidableEq

/-- `err::WriteError` (the `Io` variant cannot occur when writing to an
in-memory buffer and is omitted). -/
inductive WriteError where
  | unexpectedTag (expected found : NBTTagType)
  | seqLengthViolation (max got : Nat)
deriving DecidableEq

/-- `err::ErrorPath<I>`: an error together with the path to the offending
node; `prepend` pushes a component at the front, as the recursion unwinds. -/
structure ErrorPath (I : Type) where
  inner : I
  path : List PathPart
deriving DecidableEq

/-- `ErrorPath::prepend`. -/
def ErrorPath.prepend (e : ErrorPath I) (p : PathPart) : ErrorPath I :=
  { e with path := p :: e.path }

/-- Result type of reader primitives (`decode::Res`). -/
abbrev RRes (α : Type) := Except (ErrorPath ReadError) α

/-- Result type of writer primitives (`encode::Res`); the payload is the list
of bytes appended to the buffer. -/
abbrev WRes := Except (ErrorPath WriteError) (List Nat)

/-! ### Fixed-width byte primitives -/

/-- Big-endian bytes of the `w`-byte integer with bit pattern `x`. -/
def beBytes : Nat → Nat → List Nat
  | 0, _ => []
  | w + 1, x => (x / 2 ^ (8 * w)) % 256 :: beBytes w x

/-- Little-endian bytes of the `w`-byte integer with bit pattern `x`. -/
def leBytes : Nat → Nat → List Nat
  | 0, _ => []
  | w + 1, x => x % 256 :: leBytes w (x / 256)

/-- `Writer::write_u8` / `write_i8`: one byte. -/
def writeU8bytes (x : Nat) : List Nat := [x % 256]

/-- `Writer::write_i16`: two fixed-width bytes in the encoding's byte order
(little-endian in network mode, per `NetworkLittleEndian::write_i16`). -/
def writeI16bytes (e : Enc) (x : Nat) : List Nat :=
  match e with
  | .be => beBytes 2 x
  | .le => leBytes 2 x
  | .nle => leBytes 2 x

/-! ### Varint / zig-zag primitives (`NetworkLittleEndian`) -/

/-- The unsigned varint emission loop (`while u >= 0x80 { ... }`) shared by
`write_i32`, `write_i64` and `write_string` of `NetworkLittleEndian`.
`(u as u8) | 0x80` is `u % 128 + 128`.  The source loop runs at most ten
times for a `u64`; the structural counter `10` makes the recursion total and
never runs out for any `u < 2^70`. -/
def writeUvarGo : Nat → Nat → List Nat
  | 0, u => [u % 256]
  | n + 1, u => if 0x80 ≤ u then (u % 128 + 128) :: writeUvarGo n (u / 128) else [u]

/-- The unsigned varint bytes of `u` (`u` is a `u32` or `u64` pattern). -/
def writeUvar (u : Nat) : List Nat := writeUvarGo 10 u

/-- The zig-zag pre-map of `NetworkLittleEndian::write_i32`/`write_i64`:
`let mut u = (x as uN) << 1; if x < 0 { u = !u; }` on the `w`-bit pattern
`x`. -/
def zigzag (w : Nat) (x : Nat) : Nat :=
  let u := x * 2 % 2 ^ w
  if 2 ^ (w - 1) ≤ x then 2 ^ w - 1 - u else u

/-- `Writer::write_i32` of each encoding: four fixed-width bytes for
big/little endian, a zig-zag varint for network mode. -/
def writeI32bytes (e : Enc) (x : Nat) : List Nat :=
  match e with
  | .be => beBytes 4 x
  | .le => leBytes 4 x
  | .nle => writeUvar (zigzag 32 x)

/-- `Writer::write_i64` of each encoding. -/
def writeI64bytes (e : Enc) (x : Nat) : List Nat :=
  match e with
  | .be => beBytes 8 x
  | .le => leBytes 8 x
  | .nle => writeUvar (zigzag 64 x)

/-- `Writer::write_f32`: four bytes of the bit pattern (little-endian in
network mode). -/
def writeF32bytes (e : Enc) (bits : Nat) : List Nat :=
  match e with
  | .be => beBytes 4 bits
  | .le => leBytes 4 bits
  | .nle => leBytes 4 bits

/-- `Writer::write_f64`: eight bytes of the bit pattern. -/
def writeF64bytes (e : Enc) (bits : Nat) : List Nat :=
  match e with
  | .be => beBytes 8 bits
  | .le => leBytes 8 bits
  | .nle => leBytes 8 bits

/-! ### Reader primitives -/

/-- `Reader::u8` / `Reader::i8`: read one byte, or an I/O error at end of
input. -/
def readU8 : List Nat → RRes (Nat × List Nat)
  | [] => .error ⟨.eof, []⟩
  | b :: rest => .ok (b, rest)

/-- Read `n` bytes one by one, prepending `Element(i)` to an error as the
sequence-reading loops of the source do (`i` starts at the given index). -/
def readBytesN : Nat → Nat → List Nat → RRes (List Nat × List Nat)
  | _, 0, bs => .ok ([], bs)
  | i, n + 1, bs =>
    match readU8 bs with
    | .error err => .error (err.prepend (.element i))
    | .ok (b, rest) =>
      match readBytesN (i + 1) n rest with
      | .error err => .error err
      | .ok (xs, rest2) => .ok (b :: xs, rest2)

/-- Recompose `w` big-endian bytes into a bit pattern. -/
def beValue : List Nat → Nat
  | [] => 0
  | b :: rest => b * 2 ^ (8 * rest.length) + beValue rest

/-- Recompose little-endian bytes into a bit pattern. -/
def leValue : List Nat → Nat
  | [] => 0
  | b :: rest => b + 256 * leValue rest

/-- Fixed-width read of `w` bytes in the encoding's byte order (network mode
is little-endian for its fixed-width quantities). -/
def readFixed (e : Enc) (w : Nat) (bs : List Nat) : RRes (Nat × List Nat) :=
  match readBytesN 0 w bs with
  | .error err => .error err
  | .ok (xs, rest) =>
    match e with
    | .be => .ok (beValue xs, rest)
    | .le => .ok (leValue xs, rest)
    | .nle => .ok (leValue xs, rest)

/-- `Reader::i16`: fixed-width in every encoding. -/
def readI16 (e : Enc) (bs : List Nat) : RRes (Nat × List Nat) := readFixed e 2 bs

/-- The varint accumulation loop of `NetworkLittleEndian::i32`/`i64`/`string`:
`for i in (0..7*iters).step_by(7) { v |= ((b & 0x7f) as uN) << i; if b & 0x80
== 0 { return ...; } }`, failing with a "varint overflows integer" error when
the iterations are exhausted.  `w` is the accumulator width (32 or 64); the
shift discards bits above `w` exactly as the hardware shift does. -/
def readUvarLoop (w : Nat) : Nat → Nat → Nat → List Nat → RRes (Nat × List Nat)
  | 0, _, _, _ => .error ⟨.custom "varint overflows integer", []⟩
  | iters + 1, shift, v, bs =>
    match readU8 bs with
    | .error err => .error err
    | .ok (b, rest) =>
      let v' := v ||| b % 128 * 2 ^ shift % 2 ^ w
      if b &&& 0x80 = 0 then .ok (v', rest)
      else readUvarLoop w iters (shift + 7) v' rest

/-- The post-map the network decoder applies to the accumulated varint:
`let x = (v >> 1) as iN; if v & 1 != 0 { -x } else { x }` on `w`-bit
patterns. -/
def zigzagDecodeSrc (w : Nat) (v : Nat) : Nat :=
  if v &&& 1 ≠ 0 then (2 ^ w - v / 2) % 2 ^ w else v / 2

/-- `Reader::i32` of each encoding. -/
def readI32 (e : Enc) (bs : List Nat) : RRes (Nat × List Nat) :=
  match e with
  | .nle =>
    match readUvarLoop 32 5 0 0 bs with
    | .error err => .error err
    | .ok (v, rest) => .ok (zigzagDecodeSrc 32 v, rest)
  | _ => readFixed e 4 bs

/-- `Reader::i64` of each encoding. -/
def readI64 (e : Enc) (bs : List Nat) : RRes (Nat × List Nat) :=
  match e with
  | .nle =>
    match readUvarLoop 64 10 0 0 bs with
    | .error err => .error err
    | .ok (v, rest) => .ok (zigzagDecodeSrc 64 v, rest)
  | _ => readFixed e 8 bs

/-- `Reader::f32`. -/
def readF32 (e : Enc) (bs : List Nat) : RRes (Nat × List Nat) := readFixed e 4 bs

/-- `Reader::f64`. -/
def readF64 (e : Enc) (bs : List Nat) : RRes (Nat × List Nat) := readFixed e 8 bs

/-! ### Modified UTF-8 (CESU-8 with overlong null)

Modelled from the spec: the string codec of the external `cesu8` crate
(`to_java_cesu8` / `from_java_cesu8`), which is a dependency and not part of
this repository's sources.  Per the spec it is UTF-8 except that U+0000 is
encoded as the two bytes `C0 80` and supplementary code points are encoded as
a CESU-8 surrogate pair of two three-byte sequences; the decoder rejects
anything else (isolated continuation bytes, unpaired surrogates, other
overlong forms, truncated sequences, four-byte sequences). -/

/-- A Unicode scalar value, as carried by a Rust `char`. -/
def ValidScalar (c : Nat) : Prop :=
  c < 0x110000 ∧ (c < 0xD800 ∨ 0xE000 ≤ c)

instance (c : Nat) : Decidable (ValidScalar c) := by
  unfold ValidScalar; infer_instance

/-- The standard three-byte UTF-8 sequence for a value below `2^16`. -/
def enc3 (x : Nat) : List Nat :=
  [0xE0 + x / 4096, 0x80 + x / 64 % 64, 0x80 + x % 64]

/-- Modelled from the spec: the Modified-UTF-8 bytes of one scalar value. -/
def encChar (c : Nat) : List Nat :=
  if c = 0 then [0xC0, 0x80]
  else if c < 0x80 then [c]
  else if c < 0x800 then [0xC0 + c / 64, 0x80 + c % 64]
  else if c < 0x10000 then enc3 c
  else enc3 (0xD800 + (c - 0x10000) / 1024) ++ enc3 (0xDC00 + (c - 0x10000) % 1024)

/-- Modelled from the spec: `cesu8::to_java_cesu8` on a scalar-value list. -/
def mutf8Encode (s : List Nat) : List Nat := s.flatMap encChar

/-- The value of a three-byte UTF-8 sequence. -/
def dec3val (b b2 b3 : Nat) : Nat :=
  (b - 0xE0) * 4096 + (b2 - 0x80) * 64 + (b3 - 0x80)

mutual

/-- Modelled from the spec: `cesu8::from_java_cesu8`; `none` is the decoding
error (which the tag layer converts into the raw-bytes string form). -/
def mutf8Decode : List Nat → Option (List Nat)
  | [] => some []
  | b :: rest =>
    if b < 0x80 then (mutf8Decode rest).map (b :: ·)
    else if b < 0xC0 then none
    else if b < 0xE0 then mutf8Dec2 b rest
    else if b < 0xF0 then mutf8Dec3 b rest
    else none
  termination_by structural bs => bs

/-- Two-byte sequences: the continuation byte, the `C0 80` overlong null,
rejection of every other overlong form. -/
def mutf8Dec2 (b : Nat) : List Nat → Option (List Nat)
  | [] => none
  | b2 :: rest2 =>
    if 0x80 ≤ b2 ∧ b2 < 0xC0 then
      if b = 0xC0 then
        if b2 = 0x80 then (mutf8Decode rest2).map (0 :: ·) else none
      else if (b - 0xC0) * 64 + (b2 - 0x80) < 0x80 then none
      else (mutf8Decode rest2).map (fun t => ((b - 0xC0) * 64 + (b2 - 0x80)) :: t)
    else none
  termination_by structural bs => bs

/-- Three-byte sequences: overlong and lone-low-surrogate rejection, and the
surrogate-pair path for a high surrogate. -/
def mutf8Dec3 (b : Nat) : List Nat → Option (List Nat)
  | b2 :: b3 :: rest3 =>
    if (0x80 ≤ b2 ∧ b2 < 0xC0) ∧ (0x80 ≤ b3 ∧ b3 < 0xC0) then
      if dec3val b b2 b3 < 0x800 then none
      else if 0xD800 ≤ dec3val b b2 b3 ∧ dec3val b b2 b3 < 0xDC00 then
        mutf8DecPair (dec3val b b2 b3) rest3
      else if 0xDC00 ≤ dec3val b b2 b3 ∧ dec3val b b2 b3 < 0xE000 then none
      else (mutf8Decode rest3).map (fun t => dec3val b b2 b3 :: t)
    else none
  | _ => none
  termination_by structural bs => bs

/-- The second half of a surrogate pair: a three-byte low surrogate, combined
into the supplementary code point. -/
def mutf8DecPair (hi : Nat) : List Nat → Option (List Nat)
  | b4 :: b5 :: b6 :: rest6 =>
    if (0xE0 ≤ b4 ∧ b4 < 0xF0) ∧ (0x80 ≤ b5 ∧ b5 < 0xC0) ∧ (0x80 ≤ b6 ∧ b6 < 0xC0) then
      if 0xDC00 ≤ dec3val b4 b5 b6 ∧ dec3val b4 b5 b6 < 0xE000 then
        (mutf8Decode rest6).map
          (fun t => (0x10000 + (hi - 0xD800) * 1024 + (dec3val b4 b5 b6 - 0xDC00)) :: t)
      else none
    else none
  | _ => none
  termination_by structural bs => bs

end

/-! ### String codec -/

/-- The length-plus-raw-bytes part of `Reader::string`: big/little endian read
a fixed-width `i16` length and reject a negative one (`SeqLengthViolation`
with the `as usize` sign extension of the length); network mode
(`NetworkLittleEndian::string`) reads an unsigned varint length.  Returns the
raw payload bytes, before the Modified-UTF-8 interpretation. -/
def readStringRaw (e : Enc) (bs : List Nat) : RRes (List Nat × List Nat) :=
  match e with
  | .nle =>
    match readUvarLoop 32 5 0 0 bs with
    | .error err => .error err
    | .ok (len, rest) => readBytesN 0 len rest
  | _ =>
    match readI16 e bs with
    | .error err => .error err
    | .ok (len, rest) =>
      if 2 ^ 15 ≤ len then
        .error ⟨.seqLengthViolationR 32767 (2 ^ 64 - 2 ^ 16 + len), []⟩
      else readBytesN 0 len rest

/-- `Reader::string`: raw bytes then Modified-UTF-8 interpretation; a payload
that fails to decode is an `InvalidString` error carrying the bytes. -/
def readString (e : Enc) (bs : List Nat) : RRes (List Nat × List Nat) :=
  match readStringRaw e bs with
  | .error err => .error err
  | .ok (sb, rest) =>
    match mutf8Decode sb with
    | some s => .ok (s, rest)
    | none => .error ⟨.invalidString sb, []⟩

/-- `Writer::write_string`: Modified-UTF-8 encode, reject a byte length above
`i16::MAX`, then a fixed-width `i16` length (or an unsigned varint in network
mode, per `NetworkLittleEndian::write_string`) followed by the bytes. -/
def writeString (e : Enc) (s : List Nat) : WRes :=
  let mb := mutf8Encode s
  if 32767 < mb.length then
    .error ⟨.seqLengthViolation 32767 mb.length, []⟩
  else
    match e with
    | .nle => .ok (writeUvar mb.length ++ mb)
    | _ => .ok (writeI16bytes e mb.length ++ mb)

/-! ### Array codecs -/

/-- `Writer::write_i8_vec`: reject a length above `i32::MAX`, then the length
through the encoding's `write_i32` followed by the element bytes. -/
def writeI8Vec (e : Enc) (v : List Nat) : WRes :=
  if 2 ^ 31 - 1 < v.length then
    .error ⟨.seqLengthViolation (2 ^ 31 - 1) v.length, []⟩
  else .ok (writeI32bytes e v.length ++ v.map (· % 256))

/-- `Writer::write_i32_vec`. -/
def writeI32Vec (e : Enc) (v : List Nat) : WRes :=
  if 2 ^ 31 - 1 < v.length then
    .error ⟨.seqLengthViolation (2 ^ 31 - 1) v.length, []⟩
  else .ok (writeI32bytes e v.length ++ v.flatMap (writeI32bytes e))

/-- `Writer::write_i64_vec`. -/
def writeI64Vec (e : Enc) (v : List Nat) : WRes :=
  if 2 ^ 31 - 1 < v.length then
    .error ⟨.seqLengthViolation (2 ^ 31 - 1) v.length, []⟩
  else .ok (writeI32bytes e v.length ++ v.flatMap (writeI64bytes e))

/-- The element-reading loop shared by `Reader::i8_vec`/`i32_vec`/`i64_vec`:
read `n` values with the given primitive, prepending `Element(i)` to child
errors. -/
def readVecLoop (rd : List Nat → RRes (Nat × List Nat)) :
    Nat → Nat → List Nat → RRes (List Nat × List Nat)
  | _, 0, bs => .ok ([], bs)
  | i, n + 1, bs =>
    match rd bs with
    | .error err => .error (err.prepend (.element i))
    | .ok (x, rest) =>
      match readVecLoop rd (i + 1) n rest with
      | .error err => .error err
      | .ok (xs, rest2) => .ok (x :: xs, rest2)

/-- The length prefix of `Reader::i8_vec`/`i32_vec`/`i64_vec`: an `i32` read
in the active encoding, negative values rejected (`SeqLengthViolation` with
the 64-bit sign extension of the length). -/
def readVecLen (e : Enc) (bs : List Nat) : RRes (Nat × List Nat) :=
  match readI32 e bs with
  | .error err => .error err
  | .ok (len, rest) =>
    if 2 ^ 31 ≤ len then
      .error ⟨.seqLengthViolationR (2 ^ 31 - 1) (2 ^ 64 - 2 ^ 32 + len), []⟩
    else .ok (len, rest)

/-- `Reader::i8_vec`. -/
def readI8Vec (e : Enc) (bs : List Nat) : RRes (List Nat × List Nat) :=
  match readVecLen e bs with
  | .error err => .error err
  | .ok (len, rest) => readBytesN 0 len rest

/-- `Reader::i32_vec`. -/
def readI32VecR (e : Enc) (bs : List Nat) : RRes (List Nat × List Nat) :=
  match readVecLen e bs with
  | .error err => .error err
  | .ok (len, rest) => readVecLoop (readI32 e) 0 len rest

/-- `Reader::i64_vec`. -/
def readI64VecR (e : Enc) (bs : List Nat) : RRes (List Nat × List Nat) :=
  match readVecLen e bs with
  | .error err => .error err
  | .ok (len, rest) => readVecLoop (readI64 e) 0 len rest

/-! ### The tag data model (`src/lib.rs`, `src/tag.rs`) -/

/-- `tag::String`: UTF-8 text or the raw-bytes fallback form. -/
inductive NBTStr where
  | utf8 (s : List Nat)
  | bytes (b : List Nat)
deriving DecidableEq

/-- `NBTTag`: the twelve tag variants.  Numeric payloads are bit patterns;
a compound is its `IndexMap` in insertion order (no name is stored anywhere
on a tag).  Array payloads are lists of `i8`/`i32`/`i64` bit patterns. -/
inductive NBTTag where
  | byte (v : Nat)
  | short (v : Nat)
  | int (v : Nat)
  | long (v : Nat)
  | float (bits : Nat)
  | double (bits : Nat)
  | string (s : NBTStr)
  | compound (entries : List (List Nat × NBTTag))
  | list (elems : List NBTTag)
  | byteArray (v : List Nat)
  | intArray (v : List Nat)
  | longArray (v : List Nat)

/-- `NBTTag::tag_id`: the wire discriminator. -/
def tagId : NBTTag → Nat
  | .byte _ => 1
  | .short _ => 2
  | .int _ => 3
  | .long _ => 4
  | .float _ => 5
  | .double _ => 6
  | .string _ => 8
  | .compound _ => 10
  | .list _ => 9
  | .byteArray _ => 7
  | .intArray _ => 11
  | .longArray _ => 12

/-- `NBTTag::tag_type`. -/
def tagType : NBTTag → NBTTagType
  | .byte _ => .Byte
  | .short _ => .Short
  | .int _ => .Int
  | .long _ => .Long
  | .float _ => .Float
  | .double _ => .Double
  | .string _ => .String
  | .compound _ => .Compound
  | .list _ => .List
  | .byteArray _ => .ByteArray
  | .intArray _ => .IntArray
  | .longArray _ => .LongArray

/-- `IndexMap::insert`: replace the value in place when the key exists,
append otherwise. -/
def imInsert (m : List (List Nat × NBTTag)) (k : List Nat) (v : NBTTag) :
    List (List Nat × NBTTag) :=
  match m with
  | [] => [(k, v)]
  | (k', v') :: rest =>
    if k' = k then (k', v) :: rest else (k', v') :: imInsert rest k v

/-! ### The tag writer (`TagIo::write_payload` impls in `src/lib.rs`) -/

/-- `tag::String::write_payload`: the UTF-8 form goes through
`Writer::write_string`; the raw-bytes form checks the `i16::MAX` bound itself
and then writes a fixed-width `write_i16` length (in every encoding, network
mode included) followed by the bytes verbatim. -/
def writeStringPayload (e : Enc) : NBTStr → WRes
  | .utf8 s => writeString e s
  | .bytes b =>
    if 32767 < b.length then
      .error ⟨.seqLengthViolation 32767 b.length, []⟩
    else .ok (writeI16bytes e b.length ++ b.map (· % 256))

mutual

/-- `NBTTag::write_payload`: dispatch to the variant's payload writer. -/
def writePayload (e : Enc) : NBTTag → WRes
  | .byte v => .ok (writeU8bytes v)
  | .short v => .ok (writeI16bytes e v)
  | .int v => .ok (writeI32bytes e v)
  | .long v => .ok (writeI64bytes e v)
  | .float bits => .ok (writeF32bytes e bits)
  | .double bits => .ok (writeF64bytes e bits)
  | .string st => writeStringPayload e st
  | .compound m => writeCompoundEntries e m
  | .list xs => writeListPayload e xs
  | .byteArray v => writeI8Vec e v
  | .intArray v => writeI32Vec e v
  | .longArray v => writeI64Vec e v

/-- `tag::List::write_payload`: the element-type byte is the first element's
id, or the id of `Byte` (`1`) for an empty list; then the length as an `i32`
(no bound check: the source casts `self.len() as i32`), then the elements,
each checked against the first id. -/
def writeListPayload (e : Enc) (xs : List NBTTag) : WRes :=
  match writeListElems e (match xs with | [] => 1 | x :: _ => tagId x)
      (match xs with | [] => NBTTag.byte 0 | x :: _ => x) 0 xs with
  | .error err => .error err
  | .ok body =>
    .ok (writeU8bytes (match xs with | [] => 1 | x :: _ => tagId x) ++
      writeI32bytes e (xs.length % 2 ^ 32) ++ body)

/-- The element loop of `tag::List::write_payload`: a differing id fails with
`UnexpectedTag(self[0].tag_type(), v.tag_type())` at path `[Element(i)]`;
child errors are propagated as-is (the source does not wrap them). -/
def writeListElems (e : Enc) (firstId : Nat) (t0 : NBTTag) (i : Nat) :
    List NBTTag → WRes
  | [] => .ok []
  | v :: vs =>
    if tagId v ≠ firstId then
      .error ⟨.unexpectedTag (tagType t0) (tagType v), [.element i]⟩
    else
      match writePayload e v with
      | .error err => .error err
      | .ok b =>
        match writeListElems e firstId t0 (i + 1) vs with
        | .error err => .error err
        | .ok rest => .ok (b ++ rest)

/-- `tag::Compound::write_payload`: for each entry the child id byte, the
name, the child payload; then the END byte. -/
def writeCompoundEntries (e : Enc) : List (List Nat × NBTTag) → WRes
  | [] => .ok (writeU8bytes 0)
  | (k, v) :: rest =>
    match writeString e k with
    | .error err => .error err
    | .ok nb =>
      match writePayload e v with
      | .error err => .error err
      | .ok pv =>
        match writeCompoundEntries e rest with
        | .error err => .error err
        | .ok pr => .ok (writeU8bytes (tagId v) ++ nb ++ pv ++ pr)

end

/-- `NBTTag::write`: the root frame is the tag id byte, an empty root name,
then the payload. -/
def writeRoot (e : Enc) (t : NBTTag) : WRes :=
  match writeString e [] with
  | .error err => .error err
  | .ok nb =>
    match writePayload e t with
    | .error err => .error err
    | .ok p => .ok (writeU8bytes (tagId t) ++ nb ++ p)

/-! ### The tag reader (`TagIo::read_payload` impls in `src/lib.rs`) -/

/-- `tag::String::read_payload`: an `InvalidString` failure of the string
reader is converted into the raw-bytes form; the stream is left exactly
where the string reader left it. -/
def readStringPayload (e : Enc) (bs : List Nat) : RRes (NBTStr × List Nat) :=
  match readStringRaw e bs with
  | .error err => .error err
  | .ok (sb, rest) =>
    match mutf8Decode sb with
    | some s => .ok (.utf8 s, rest)
    | none => .ok (.bytes sb, rest)

mutual

/-- `NBTTag::read_payload`: dispatch on the tag id; an unknown id is an
`UnknownTagType` error (id `0` included, so END is rejected where a payload
is expected).  The first argument is recursion fuel (see the file header). -/
def readPayloadF (e : Enc) : Nat → Nat → List Nat → RRes (NBTTag × List Nat)
  | 0, _, _ => .error ⟨.custom "model: recursion fuel exhausted", []⟩
  | fuel + 1, id, bs =>
    match id with
    | 1 =>
      match readU8 bs with
      | .error err => .error err
      | .ok (v, rest) => .ok (.byte v, rest)
    | 2 =>
      match readI16 e bs with
      | .error err => .error err
      | .ok (v, rest) => .ok (.short v, rest)
    | 3 =>
      match readI32 e bs with
      | .error err => .error err
      | .ok (v, rest) => .ok (.int v, rest)
    | 4 =>
      match readI64 e bs with
      | .error err => .error err
      | .ok (v, rest) => .ok (.long v, rest)
    | 5 =>
      match readF32 e bs with
      | .error err => .error err
      | .ok (v, rest) => .ok (.float v, rest)
    | 6 =>
      match readF64 e bs with
      | .error err => .error err
      | .ok (v, rest) => .ok (.double v, rest)
    | 8 =>
      match readStringPayload e bs with
      | .error err => .error err
      | .ok (st, rest) => .ok (.string st, rest)
    | 10 =>
      match readCompoundEntriesF e fuel [] bs with
      | .error err => .error err
      | .ok (m, rest) => .ok (.compound m, rest)
    | 9 =>
      match readU8 bs with
      | .error err => .error err
      | .ok (contentType, r1) =>
        match readI32 e r1 with
        | .error err => .error err
        | .ok (len, r2) =>
          if 2 ^ 31 ≤ len then
            .error ⟨.seqLengthViolationR (2 ^ 31 - 1) (2 ^ 64 - 2 ^ 32 + len), []⟩
          else
            match readListElemsF e fuel contentType 0 len r2 with
            | .error err => .error err
            | .ok (elems, rest) => .ok (.list elems, rest)
    | 7 =>
      match readI8Vec e bs with
      | .error err => .error err
      | .ok (v, rest) => .ok (.byteArray v, rest)
    | 11 =>
      match readI32VecR e bs with
      | .error err => .error err
      | .ok (v, rest) => .ok (.intArray v, rest)
    | 12 =>
      match readI64VecR e bs with
      | .error err => .error err
      | .ok (v, rest) => .ok (.longArray v, rest)
    | other => .error ⟨.unknownTagType other, []⟩
  termination_by structural fuel _ _ => fuel

/-- The element loop of `tag::List::read_payload`: `len` payloads of the
given content type, child errors wrapped with `Element(i)` (fuel is spent
per iteration as well, to keep the recursion structural). -/
def readListElemsF (e : Enc) :
    Nat → Nat → Nat → Nat → List Nat → RRes (List NBTTag × List Nat)
  | 0, _, _, _, _ => .error ⟨.custom "model: recursion fuel exhausted", []⟩
  | _ + 1, _, _, 0, bs => .ok ([], bs)
  | fuel + 1, contentType, i, n + 1, bs =>
    match readPayloadF e fuel contentType bs with
    | .error err => .error (err.prepend (.element i))
    | .ok (t, rest) =>
      match readListElemsF e fuel contentType (i + 1) n rest with
      | .error err => .error err
      | .ok (ts, rest2) => .ok (t :: ts, rest2)
  termination_by structural fuel _ _ _ _ => fuel

/-- The entry loop of `tag::Compound::read_payload`: read a child id until
END, then the name and the child payload (child errors wrapped with
`MapKey(name)`); entries are inserted into the map as they come. -/
def readCompoundEntriesF (e : Enc) :
    Nat → List (List Nat × NBTTag) → List Nat →
      RRes (List (List Nat × NBTTag) × List Nat)
  | 0, _, _ => .error ⟨.custom "model: recursion fuel exhausted", []⟩
  | fuel + 1, acc, bs =>
    match readU8 bs with
    | .error err => .error err
    | .ok (contentType, r1) =>
      if contentType = 0 then .ok (acc, r1)
      else
        match readString e r1 with
        | .error err => .error err
        | .ok (name, r2) =>
          match readPayloadF e fuel contentType r2 with
          | .error err => .error (err.prepend (.mapKey name))
          | .ok (v, r3) => readCompoundEntriesF e fuel (imInsert acc name v) r3
  termination_by structural fuel _ _ => fuel

end

/-- `NBTTag::read` with explicit recursion fuel: the root frame is the tag id
byte, the root name (parsed and discarded), then the payload; any trailing
bytes are ignored. -/
def readRootF (e : Enc) (fuel : Nat) (bs : List Nat) : RRes NBTTag :=
  match readU8 bs with
  | .error err => .error err
  | .ok (id, r1) =>
    match readString e r1 with
    | .error err => .error err
    | .ok (_, r2) =>
      match readPayloadF e fuel id r2 with
      | .error err => .error err
      | .ok (t, _) => .ok t

/-- `NBTTag::read`, with fuel one more than the input length (depth never
exceeds the number of input bytes). -/
def readRoot (e : Enc) (bs : List Nat) : RRes NBTTag :=
  readRootF e (bs.length + 1) bs

/-- The empty-name bytes the writer emits for the root frame: a zero
`i16` length in the fixed-width encodings, a zero varint in network mode. -/
def emptyNameBytes (e : Enc) : List Nat :=
  match e with
  | .nle => [0]
  | _ => [0, 0]

/-! ### Helper lemmas: bits and varints -/

theorem lor_disjoint (a b k : Nat) (h : a < 2 ^ k) :
    a ||| b * 2 ^ k = a + b * 2 ^ k := by
  apply Nat.eq_of_testBit_eq
  intro j
  rw [Nat.testBit_lor]
  rw [show a + b * 2 ^ k = 2 ^ k * b + a by ring]
  rw [Nat.testBit_mul_pow_two_add b h]
  rw [show b * 2 ^ k = 2 ^ k * b + 0 by ring, Nat.testBit_mul_pow_two_add b (by positivity)]
  by_cases hj : j < k
  · simp [hj]
  · simp only [hj, if_false]
    have : a < 2 ^ j := lt_of_lt_of_le h (Nat.pow_le_pow_right (by norm_num) (by omega))
    simp [Nat.testBit_lt_two_pow this]

theorem and128_eq_zero {b : Nat} (h : b < 128) : b &&& 128 = 0 := by
  have ht : b.testBit 7 = false := Nat.testBit_lt_two_pow (by norm_num; omega)
  have := Nat.and_two_pow b 7
  norm_num at this
  rw [this, ht]
  rfl

theorem and128_ne_zero {b : Nat} (h1 : 128 ≤ b) (h2 : b < 256) : b &&& 128 ≠ 0 := by
  have ht : b.testBit 7 = true := by
    rw [Nat.testBit_to_div_mod]
    have hd : b / 2 ^ 7 = 1 := by norm_num; omega
    rw [hd]
    rfl
  have := Nat.and_two_pow b 7
  norm_num at this
  rw [this, ht]
  norm_num

/-- The varint accumulation loop inverts the varint emission loop: reading
from the bytes of `v` (followed by anything) accumulates exactly `v` on top
of the bits already gathered. -/
theorem readUvarLoop_writeUvarGo (w : Nat) :
    ∀ (iters : Nat) (v g shift acc : Nat) (rest : List Nat),
      1 ≤ iters → v < 128 ^ iters → iters ≤ g + 1 → acc < 2 ^ shift →
      v * 2 ^ shift < 2 ^ w →
      readUvarLoop w iters shift acc (writeUvarGo g v ++ rest) =
        .ok (acc + v * 2 ^ shift, rest) := by
  intro iters
  induction iters with
  | zero => omega
  | succ k ih =>
    intro v g shift acc rest _ hv hg hacc hsh
    by_cases hsmall : v < 128
    · have hgo : writeUvarGo g v = [v] := by
        cases g with
        | zero => simp [writeUvarGo]; omega
        | succ g' => simp [writeUvarGo]; omega
      rw [hgo]
      show readUvarLoop w (k + 1) shift acc (v :: rest) = _
      rw [readUvarLoop]
      simp only [readU8]
      have hmod : v * 2 ^ shift % 2 ^ w = v * 2 ^ shift := Nat.mod_eq_of_lt hsh
      have hv128 : v % 128 = v := Nat.mod_eq_of_lt hsmall
      rw [hv128, hmod, and128_eq_zero hsmall]
      simp [lor_disjoint acc v shift hacc]
    · have hk1 : 1 ≤ k := by
        by_contra hk
        have : k = 0 := by omega
        subst this
        simp at hv
        omega
      obtain ⟨gp, rfl⟩ : ∃ gp, g = gp + 1 := ⟨g - 1, by omega⟩
      have hgo : writeUvarGo (gp + 1) v = (v % 128 + 128) :: writeUvarGo gp (v / 128) := by
        simp [writeUvarGo]; omega
      rw [hgo]
      show readUvarLoop w (k + 1) shift acc
        ((v % 128 + 128) :: (writeUvarGo gp (v / 128) ++ rest)) = _
      rw [readUvarLoop]
      simp only [readU8]
      have hb : (v % 128 + 128) % 128 = v % 128 := by omega
      have hne : (v % 128 + 128) &&& 128 ≠ 0 := and128_ne_zero (by omega) (by omega)
      rw [hb, if_neg (by simpa using hne)]
      have hd : v % 128 * 2 ^ shift < 2 ^ w := by
        calc v % 128 * 2 ^ shift ≤ v * 2 ^ shift :=
              Nat.mul_le_mul_right _ (Nat.mod_le v 128)
          _ < 2 ^ w := hsh
      have hmod : v % 128 * 2 ^ shift % 2 ^ w = v % 128 * 2 ^ shift := Nat.mod_eq_of_lt hd
      rw [hmod, lor_disjoint acc (v % 128) shift hacc]
      have ihres := ih (v / 128) gp (shift + 7) (acc + v % 128 * 2 ^ shift) rest hk1
        (by
          apply Nat.div_lt_of_lt_mul
          calc v < 128 ^ (k + 1) := hv
            _ = 128 * 128 ^ k := by ring)
        (by omega)
        (by
          have h2 : v % 128 * 2 ^ shift ≤ 127 * 2 ^ shift :=
            Nat.mul_le_mul_right _ (by omega)
          have h3 : 2 ^ (shift + 7) = 128 * 2 ^ shift := by rw [pow_add]; ring
          omega)
        (by
          calc v / 128 * 2 ^ (shift + 7) = v / 128 * 128 * 2 ^ shift := by
                rw [pow_add]; ring
            _ ≤ v * 2 ^ shift := Nat.mul_le_mul_right _ (Nat.div_mul_le_self v 128)
            _ < 2 ^ w := hsh)
      rw [ihres]
      congr 2
      have hsplit : v % 128 + 128 * (v / 128) = v := Nat.mod_add_div v 128
      calc acc + v % 128 * 2 ^ shift + v / 128 * 2 ^ (shift + 7)
          = acc + (v % 128 + 128 * (v / 128)) * 2 ^ shift := by rw [pow_add]; ring
        _ = acc + v * 2 ^ shift := by rw [hsplit]

/-- Round trip of the unsigned varint codec at width 32 (as used for network
string lengths and, composed with the zig-zag maps, for `i32`). -/
theorem readUvar32_writeUvar (v : Nat) (rest : List Nat) (h : v < 2 ^ 32) :
    readUvarLoop 32 5 0 0 (writeUvar v ++ rest) = .ok (v, rest) := by
  have := readUvarLoop_writeUvarGo 32 5 v 10 0 0 rest (by norm_num)
    (by norm_num at h ⊢; omega) (by norm_num) (by norm_num) (by norm_num at h ⊢; omega)
  simpa [writeUvar] using this

/-! ### Helper lemmas: fixed-width reads -/

theorem readBytesN_append (xs : List Nat) :
    ∀ (i : Nat) (rest : List Nat), readBytesN i xs.length (xs ++ rest) = .ok (xs, rest) := by
  induction xs with
  | nil => intro i rest; simp [readBytesN]
  | cons b bs ih => intro i rest; simp [readBytesN, readU8, ih]

theorem readI16_writeI16 (e : Enc) (n : Nat) (rest : List Nat) (h : n < 2 ^ 16) :
    readI16 e (writeI16bytes e n ++ rest) = .ok (n, rest) := by
  have hb : ∀ a b : Nat, readBytesN 0 2 ([a, b] ++ rest) = .ok ([a, b], rest) := fun a b => by
    simpa using readBytesN_append [a, b] 0 rest
  cases e <;>
    simp only [readI16, writeI16bytes, beBytes, leBytes, readFixed, hb] <;>
    simp [beValue, leValue] <;> omega

/-! ### Helper lemmas: Modified UTF-8 -/

theorem mutf8Decode_encChar (c : Nat) (hc : ValidScalar c) (rest : List Nat) :
    mutf8Decode (encChar c ++ rest) = (mutf8Decode rest).map (c :: ·) := by
  obtain ⟨hlt, hsur⟩ := hc
  by_cases h0 : c = 0
  · subst h0
    simp [encChar, mutf8Decode, mutf8Dec2]
  by_cases h1 : c < 0x80
  · simp only [encChar, if_neg h0, if_pos h1, List.cons_append, List.nil_append]
    simp [mutf8Decode, h1]
  by_cases h2 : c < 0x800
  · simp only [encChar, if_neg h0, if_neg h1, if_pos h2, List.cons_append, List.nil_append]
    rw [mutf8Decode]
    rw [if_neg (by omega), if_neg (by omega), if_pos (by omega)]
    rw [mutf8Dec2]
    rw [if_pos (by omega), if_neg (by omega), if_neg (by omega)]
    rw [show (0xC0 + c / 64 - 0xC0) * 64 + (0x80 + c % 64 - 0x80) = c by omega]
  by_cases h3 : c < 0x10000
  · simp only [encChar, if_neg h0, if_neg h1, if_neg h2, if_pos h3, enc3,
      List.cons_append, List.nil_append]
    rw [mutf8Decode]
    rw [if_neg (by omega), if_neg (by omega), if_neg (by omega), if_pos (by omega)]
    rw [mutf8Dec3]
    rw [if_pos (by omega)]
    rw [show dec3val (0xE0 + c / 4096) (0x80 + c / 64 % 64) (0x80 + c % 64) = c by
      unfold dec3val; omega]
    rw [if_neg (by omega), if_neg (by omega), if_neg (by omega)]
  · simp only [encChar, if_neg h0, if_neg h1, if_neg h2, if_neg h3, enc3,
      List.cons_append, List.nil_append, List.append_assoc]
    rw [mutf8Decode]
    rw [if_neg (by omega), if_neg (by omega), if_neg (by omega), if_pos (by omega)]
    rw [mutf8Dec3]
    rw [if_pos (by omega)]
    rw [show dec3val (0xE0 + (0xD800 + (c - 0x10000) / 1024) / 4096)
        (0x80 + (0xD800 + (c - 0x10000) / 1024) / 64 % 64)
        (0x80 + (0xD800 + (c - 0x10000) / 1024) % 64) =
        0xD800 + (c - 0x10000) / 1024 by unfold dec3val; omega]
    rw [if_neg (by omega), if_pos (by omega)]
    rw [mutf8DecPair]
    rw [if_pos (by omega)]
    rw [show dec3val (0xE0 + (0xDC00 + (c - 0x10000) % 1024) / 4096)
        (0x80 + (0xDC00 + (c - 0x10000) % 1024) / 64 % 64)
        (0x80 + (0xDC00 + (c - 0x10000) % 1024) % 64) =
        0xDC00 + (c - 0x10000) % 1024 by unfold dec3val; omega]
    rw [if_pos (by omega)]
    rw [show 0x10000 + (0xD800 + (c - 0x10000) / 1024 - 0xD800) * 1024 +
      (0xDC00 + (c - 0x10000) % 1024 - 0xDC00) = c by omega]

/-- Modified-UTF-8 round trip on scalar-value lists. -/
theorem mutf8Decode_mutf8Encode (s : List Nat) (hs : ∀ c ∈ s, ValidScalar c) :
    mutf8Decode (mutf8Encode s) = some s := by
  induction s with
  | nil => simp [mutf8Encode, mutf8Decode]
  | cons c cs ih =>
    have hc : ValidScalar c := hs c (by simp)
    have hcs : ∀ x ∈ cs, ValidScalar x := fun x hx => hs x (by simp [hx])
    rw [show mutf8Encode (c :: cs) = encChar c ++ mutf8Encode cs from rfl]
    rw [mutf8Decode_encChar c hc, ih hcs]
    rfl

/-! ### Helper lemmas: string codec -/

theorem map_mod256_eq_self (b : List Nat) (h : ∀ x ∈ b, x < 256) :
    b.map (· % 256) = b := by
  induction b with
  | nil => rfl
  | cons x xs ih =>
    have hx : x < 256 := h x (by simp)
    simp only [List.map_cons, Nat.mod_eq_of_lt hx, List.cons.injEq, true_and]
    exact ih fun y hy => h y (by simp [hy])

/-- Reading back the raw length-prefixed bytes written for a string payload:
the writer's length prefix parses to the byte count and the payload bytes are
returned unchanged. -/
theorem readStringRaw_writes (e : Enc) (mb rest : List Nat) (h : mb.length ≤ 32767) :
    readStringRaw e
        ((match e with
          | .nle => writeUvar mb.length
          | _ => writeI16bytes e mb.length) ++ mb ++ rest) =
      .ok (mb, rest) := by
  cases e
  · simp only [readStringRaw, List.append_assoc]
    rw [readI16_writeI16 .be mb.length (mb ++ rest) (by omega)]
    dsimp only
    rw [if_neg (by omega), readBytesN_append]
  · simp only [readStringRaw, List.append_assoc]
    rw [readI16_writeI16 .le mb.length (mb ++ rest) (by omega)]
    dsimp only
    rw [if_neg (by omega), readBytesN_append]
  · simp only [readStringRaw, List.append_assoc]
    rw [readUvar32_writeUvar mb.length (mb ++ rest) (by omega)]
    dsimp only
    rw [readBytesN_append]

/-- `Writer::write_string` succeeds below the length bound and emits the
length prefix followed by the Modified-UTF-8 bytes. -/
theorem writeString_ok (e : Enc) (s : List Nat)
    (h : (mutf8Encode s).length ≤ 32767) :
    writeString e s =
      .ok ((match e with
        | .nle => writeUvar (mutf8Encode s).length
        | _ => writeI16bytes e (mutf8Encode s).length) ++ mutf8Encode s) := by
  cases e <;> simp [writeString, h, Nat.not_lt.mpr h]

/-- `Reader::string` inverts `Writer::write_string` on valid scalar lists. -/
theorem readString_writeString (e : Enc) (s out rest : List Nat)
    (hs : ∀ c ∈ s, ValidScalar c) (hlen : (mutf8Encode s).length ≤ 32767)
    (hw : writeString e s = .ok out) :
    readString e (out ++ rest) = .ok (s, rest) := by
  rw [writeString_ok e s hlen] at hw
  cases hw
  rw [readString, readStringRaw_writes e _ rest hlen]
  dsimp only
  rw [mutf8Decode_mutf8Encode s hs]

/-- Reading the empty root name the writer emits. -/
theorem readString_emptyName (e : Enc) (rest : List Nat) :
    readString e (emptyNameBytes e ++ rest) = .ok ([], rest) := by
  have h := readString_writeString e [] (emptyNameBytes e) rest
    (by simp) (by simp [mutf8Encode])
  cases e <;> exact h (by rfl)

/-- `tag::String::read_payload` on a written UTF-8 string payload. -/
theorem readStringPayload_utf8 (e : Enc) (s out rest : List Nat)
    (hs : ∀ c ∈ s, ValidScalar c) (hlen : (mutf8Encode s).length ≤ 32767)
    (hw : writeStringPayload e (.utf8 s) = .ok out) :
    readStringPayload e (out ++ rest) = .ok (.utf8 s, rest) := by
  rw [writeStringPayload, writeString_ok e s hlen] at hw
  cases hw
  rw [readStringPayload, readStringRaw_writes e _ rest hlen]
  dsimp only
  rw [mutf8Decode_mutf8Encode s hs]

/-- `tag::String::write_payload` on the raw-bytes form, below the bound:
a fixed-width `i16` length in every encoding, then the bytes verbatim. -/
theorem writeStringPayload_bytes (e : Enc) (b : List Nat)
    (hlen : b.length ≤ 32767) (hbytes : ∀ x ∈ b, x < 256) :
    writeStringPayload e (.bytes b) = .ok (writeI16bytes e b.length ++ b) := by
  simp [writeStringPayload, Nat.not_lt.mpr hlen, map_mod256_eq_self b hbytes]

/-- `tag::String::read_payload` on a written raw-bytes payload, for the
fixed-width encodings (network mode reads the length back as a varint and
does not invert the fixed-width prefix). -/
theorem readStringPayload_bytes (e : Enc) (b rest : List Nat) (he : e ≠ .nle)
    (hdec : mutf8Decode b = none) (hlen : b.length ≤ 32767) :
    readStringPayload e (writeI16bytes e b.length ++ b ++ rest) = .ok (.bytes b, rest) := by
  have hraw : readStringRaw e (writeI16bytes e b.length ++ b ++ rest) = .ok (b, rest) := by
    have := readStringRaw_writes e b rest hlen
    cases e
    · simpa using this
    · simpa using this
    · exact absurd rfl he
  rw [readStringPayload, hraw]
  dsimp only
  rw [hdec]

/-! ### Further helper lemmas -/

theorem length_mutf8Encode_replicate97 (n : Nat) :
    (mutf8Encode (List.replicate n 97)).length = n := by
  induction n with
  | zero => rfl
  | succ k ih =>
    rw [List.replicate_succ,
      show mutf8Encode (97 :: List.replicate k 97) =
        encChar 97 ++ mutf8Encode (List.replicate k 97) from rfl,
      show encChar 97 = [97] from rfl]
    simp [ih]

/-- The element loop of the list writer succeeds on a homogeneous list whose
element payloads all write successfully. -/
theorem writeListElems_ok (e : Enc) (fid : Nat) (t0 : NBTTag) :
    ∀ (l : List NBTTag) (i : Nat),
      (∀ v ∈ l, tagId v = fid) → (∀ v ∈ l, ∃ b, writePayload e v = .ok b) →
      ∃ b, writeListElems e fid t0 i l = .ok b := by
  intro l
  induction l with
  | nil => intro i _ _; exact ⟨[], by rw [writeListElems]⟩
  | cons v vs ih =>
    intro i hid hok
    obtain ⟨bv, hbv⟩ := hok v (by simp)
    obtain ⟨bs, hbs⟩ := ih (i + 1) (fun x hx => hid x (by simp [hx]))
      (fun x hx => hok x (by simp [hx]))
    refine ⟨bv ++ bs, ?_⟩
    rw [writeListElems, if_neg (by simp [hid v (by simp)]), hbv, hbs]

/-- The element loop of the list writer fails at the first offending index
(provided the payloads before it write successfully), with the error the
source builds there. -/
theorem writeListElems_err (e : Enc) (fid : Nat) (t0 : NBTTag) :
    ∀ (l : List NBTTag) (k i : Nat),
      k < l.length →
      (∀ j, j < k → tagId (l.getD j (.byte 0)) = fid) →
      (∀ j, j < k → ∃ b, writePayload e (l.getD j (.byte 0)) = .ok b) →
      tagId (l.getD k (.byte 0)) ≠ fid →
      writeListElems e fid t0 i l =
        .error ⟨.unexpectedTag (tagType t0) (tagType (l.getD k (.byte 0))),
          [.element (i + k)]⟩ := by
  intro l
  induction l with
  | nil => intro k i hk; simp at hk
  | cons v vs ih =>
    intro k i hk hpre hok hbad
    cases k with
    | zero =>
      simp only [List.getD_cons_zero, Nat.add_zero] at hbad ⊢
      rw [writeListElems, if_pos hbad]
    | succ kp =>
      have hv : tagId v = fid := by
        have := hpre 0 (by omega)
        simpa using this
      obtain ⟨bv, hbv⟩ := by
        have := hok 0 (by omega)
        simpa using this
      simp only [List.getD_cons_succ] at hbad ⊢
      rw [writeListElems, if_neg (by simp [hv]), hbv]
      rw [ih kp (i + 1) (by simpa using hk)
        (fun j hj => by simpa using hpre (j + 1) (by omega))
        (fun j hj => by simpa using hok (j + 1) (by omega)) hbad]
      rw [show i + 1 + kp = i + (kp + 1) by omega]

/-- The root frame written for a string tag reads back to the same tag,
given that its payload writes to `p` and `p` reads back to it. -/
theorem readRoot_writeRoot_string (e : Enc) (st : NBTStr) (p : List Nat)
    (hw : writeStringPayload e st = .ok p)
    (hr : readStringPayload e p = .ok (st, [])) :
    ∃ out, writeRoot e (.string st) = .ok out ∧ readRoot e out = .ok (.string st) := by
  have hwp : writePayload e (.string st) = .ok p := by rw [writePayload]; exact hw
  have hname : writeString e [] = .ok (emptyNameBytes e) := by
    cases e <;> rfl
  refine ⟨8 :: (emptyNameBytes e ++ p), ?_, ?_⟩
  · rw [writeRoot, hname, hwp]
    dsimp only
    simp [writeU8bytes, tagId]
  · rw [readRoot, readRootF]
    dsimp only [readU8]
    rw [readString_emptyName e p]
    dsimp only
    rw [show ∀ f, readPayloadF e (f + 1) 8 p =
      match readStringPayload e p with
      | .error err => .error err
      | .ok (st, rest) => .ok (.string st, rest) from fun f => rfl]
    rw [hr]

/-! ### The claims -/

/-- Claim C1 (code_bug): the round-trip law `read_root(write_root(t, E), E) == t`
fails in the `NetworkLittleEndian` encoding: the `Int` tag holding `-1`
(bit pattern `0xFFFFFFFF`) is written as the zig-zag varint byte `0x01`, and
reading those bytes back yields `Int(0)` — the network varint decoder returns
`-(v >> 1)` instead of the zig-zag inverse `-(v >> 1) - 1` for odd `v`. -/
theorem C1_network_roundtrip_bug :
    writeRoot .nle (.int 4294967295) = .ok [3, 0, 1] ∧
    readRoot .nle [3, 0, 1] = .ok (.int 0) ∧ (0 : Nat) ≠ 4294967295 := by
  refine ⟨?_, rfl, by norm_num⟩
  rw [writeRoot]
  norm_num [writeString, mutf8Encode, writePayload, writeI32bytes, zigzag, writeUvar,
    writeUvarGo, writeU8bytes, tagId]

/-- Claim C2 (code_bug): the zig-zag varint law `decode32(encode32(x)) == x`
fails at `x = -1` (pattern `0xFFFFFFFF`): the network encoder emits `[0x01]`
and the decoder maps it back to `0`, not `-1`; likewise for the 64-bit codec
at `-1` (pattern `2^64 - 1`). -/
theorem C2_varint_zigzag_bug :
    writeI32bytes .nle 4294967295 = [1] ∧ readI32 .nle [1] = .ok (0, []) ∧
    writeI64bytes .nle 18446744073709551615 = [1] ∧ readI64 .nle [1] = .ok (0, []) ∧
    (0 : Nat) ≠ 4294967295 ∧ (0 : Nat) ≠ 18446744073709551615 :=
  ⟨rfl, rfl, rfl, rfl, by norm_num, by norm_num⟩

/-- Claim C3 counterexample: in `NetworkLittleEndian` the element-count
prefix of a `ByteArray` is NOT a fixed-width 4-byte `i32`: the array
`[1, 2, 3]` is written with the single prefix byte `0x06` (the zig-zag varint
of 3), not the four little-endian bytes `03 00 00 00`. -/
theorem C3_network_length_cex :
    writeI8Vec .nle [1, 2, 3] = .ok [6, 1, 2, 3] ∧
    writeI8Vec .nle [1, 2, 3] ≠ .ok ([3, 0, 0, 0] ++ [1, 2, 3]) := by
  constructor
  · rfl
  · intro h
    rw [show writeI8Vec .nle [1, 2, 3] = .ok [6, 1, 2, 3] from rfl] at h
    simp at h

/-- Claim C3 (corrected): the element-count prefix of
ByteArray/IntArray/LongArray is written through the encoding's `write_i32`:
four fixed-width bytes in `BigEndian`/`LittleEndian`, but the zig-zag varint
of the length in `NetworkLittleEndian`. -/
theorem C3_array_length_amended (e : Enc) (v : List Nat)
    (h : v.length ≤ 2 ^ 31 - 1) :
    writeI8Vec e v = .ok (writeI32bytes e v.length ++ v.map (· % 256)) ∧
    writeI32Vec e v = .ok (writeI32bytes e v.length ++ v.flatMap (writeI32bytes e)) ∧
    writeI64Vec e v = .ok (writeI32bytes e v.length ++ v.flatMap (writeI64bytes e)) ∧
    (writeI32bytes .be v.length).length = 4 ∧
    (writeI32bytes .le v.length).length = 4 ∧
    writeI32bytes .nle v.length = writeUvar (2 * v.length) := by
  refine ⟨?_, ?_, ?_, rfl, rfl, ?_⟩
  · simp only [writeI8Vec]
    rw [if_neg (by omega)]
  · simp only [writeI32Vec]
    rw [if_neg (by omega)]
  · simp only [writeI64Vec]
    rw [if_neg (by omega)]
  · have hz : zigzag 32 v.length = 2 * v.length := by
      simp only [zigzag]
      rw [if_neg (by norm_num at h ⊢; omega)]
      rw [Nat.mod_eq_of_lt (by norm_num at h ⊢; omega)]
      ring
    simp [writeI32bytes, hz]

/-- Witness for C3: the amended statement at `NetworkLittleEndian` and
`[1, 2, 3]`, where the varint length prefix is the single byte `6`. -/
theorem C3_array_length_amended_witness :
    writeI8Vec .nle [1, 2, 3] =
      .ok (writeI32bytes .nle ([1, 2, 3] : List Nat).length ++
        ([1, 2, 3] : List Nat).map (· % 256)) ∧
    writeI32bytes .nle ([1, 2, 3] : List Nat).length = writeUvar (2 * 3) := by
  have h := C3_array_length_amended .nle [1, 2, 3] (by norm_num)
  exact ⟨h.1, h.2.2.2.2.2⟩

/-- Claim C4 counterexample: the empty list payload does NOT start with an
element-type byte of 0 (END): in `BigEndian` the source writes
`NBTTag::Byte(0).tag_id() = 1` followed by the four length bytes. -/
theorem C4_empty_list_cex :
    writeListPayload .be ([] : List NBTTag) = .ok [1, 0, 0, 0, 0] ∧
    writeListPayload .be ([] : List NBTTag) ≠ .ok [0, 0, 0, 0, 0] := by
  have h : writeListPayload .be ([] : List NBTTag) = .ok [1, 0, 0, 0, 0] := by
    rw [writeListPayload, writeListElems]
    norm_num [writeU8bytes, writeI32bytes, beBytes]
  refine ⟨h, ?_⟩
  rw [h]
  simp

/-- Claim C4 (corrected): for every encoding the empty list payload is the
element-type id byte `1` (the id of `Byte`) followed by the length 0 written
through the encoding's `write_i32` (`[0,0,0,0]` fixed-width, `[0]` varint). -/
theorem C4_empty_list_amended :
    writeListPayload .be ([] : List NBTTag) = .ok [1, 0, 0, 0, 0] ∧
    writeListPayload .le ([] : List NBTTag) = .ok [1, 0, 0, 0, 0] ∧
    writeListPayload .nle ([] : List NBTTag) = .ok [1, 0] := by
  refine ⟨?_, ?_, ?_⟩ <;>
    · rw [writeListPayload, writeListElems]
      norm_num [writeU8bytes, writeI32bytes, beBytes, leBytes, zigzag, writeUvar, writeUvarGo]

/-- Claim C8 counterexample: the eight bytes `03 00 01 61 12 34 56 78` decode
to `Int(0x12345678)` (the root name `"a"` is parsed and discarded), but
re-encoding does NOT reproduce the same bytes: the writer always emits an
empty root name, producing the seven bytes `03 00 00 12 34 56 78`. -/
theorem C8_scenario_a_cex :
    readRoot .be [0x03, 0x00, 0x01, 0x61, 0x12, 0x34, 0x56, 0x78] = .ok (.int 0x12345678) ∧
    writeRoot .be (.int 0x12345678) = .ok [0x03, 0x00, 0x00, 0x12, 0x34, 0x56, 0x78] ∧
    [0x03, 0x00, 0x00, 0x12, 0x34, 0x56, 0x78] ≠
      [0x03, 0x00, 0x01, 0x61, 0x12, 0x34, 0x56, 0x78] := by
  refine ⟨rfl, ?_, by simp⟩
  rw [writeRoot]
  norm_num [writeString, mutf8Encode, writePayload, writeI32bytes, beBytes, writeI16bytes,
    writeU8bytes, tagId]

/-- Claim C8 (corrected): decoding `03 00 01 61 12 34 56 78` succeeds with
`Int(0x12345678)`; re-encoding yields `03 00 00 12 34 56 78` — the same
frame with an empty root name, since the decoded tag retains no name. -/
theorem C8_scenario_a_amended :
    readRoot .be [0x03, 0x00, 0x01, 0x61, 0x12, 0x34, 0x56, 0x78] = .ok (.int 0x12345678) ∧
    writeRoot .be (.int 0x12345678) = .ok [0x03, 0x00, 0x00, 0x12, 0x34, 0x56, 0x78] := by
  refine ⟨rfl, ?_⟩
  rw [writeRoot]
  norm_num [writeString, mutf8Encode, writePayload, writeI32bytes, beBytes, writeI16bytes,
    writeU8bytes, tagId]

/-- Claim C9 (confirmed): writing a string whose Modified-UTF-8 encoding is
longer than `i16::MAX` bytes fails with `SeqLengthViolation(i16::MAX, n)`
where `n` is the byte length, in every encoding; writing a
ByteArray/IntArray/LongArray with more than `i32::MAX` elements fails with
`SeqLengthViolation(i32::MAX, n)`. -/
theorem C9_length_bounds :
    (∀ (e : Enc) (s : List Nat), 32767 < (mutf8Encode s).length →
      writeString e s = .error ⟨.seqLengthViolation 32767 (mutf8Encode s).length, []⟩) ∧
    (∀ (e : Enc) (v : List Nat), 2 ^ 31 - 1 < v.length →
      writeI8Vec e v = .error ⟨.seqLengthViolation (2 ^ 31 - 1) v.length, []⟩ ∧
      writeI32Vec e v = .error ⟨.seqLengthViolation (2 ^ 31 - 1) v.length, []⟩ ∧
      writeI64Vec e v = .error ⟨.seqLengthViolation (2 ^ 31 - 1) v.length, []⟩) := by
  constructor
  · intro e s h
    simp only [writeString]
    rw [if_pos h]
  · intro e v h
    refine ⟨?_, ?_, ?_⟩ <;> simp only [writeI8Vec, writeI32Vec, writeI64Vec] <;>
      rw [if_pos (by omega)]

/-- Witness for C9: a 32768-character ASCII string trips the string bound;
an array of `2^31` zero bytes trips the array bound. -/
theorem C9_length_bounds_witness :
    writeString .be (List.replicate 32768 97) =
      .error ⟨.seqLengthViolation 32767 32768, []⟩ ∧
    writeI8Vec .be (List.replicate (2 ^ 31) 0) =
      .error ⟨.seqLengthViolation (2 ^ 31 - 1) (2 ^ 31), []⟩ := by
  constructor
  · have hl := length_mutf8Encode_replicate97 32768
    have := C9_length_bounds.1 .be (List.replicate 32768 97) (by rw [hl]; norm_num)
    rw [this, hl]
  · have h2 := (C9_length_bounds.2 .be (List.replicate (2 ^ 31) 0)
      (by rw [List.length_replicate]; omega)).1
    rw [List.length_replicate] at h2
    exact h2

/-- Claim C5 counterexample: a `String::Bytes` value whose bytes ARE valid
Modified UTF-8 does not survive a round trip: `Bytes([0x61])` is written
verbatim but reads back as `Utf8("a")`. -/
theorem C5_bytes_valid_utf8_cex :
    writeRoot .be (.string (.bytes [97])) = .ok [8, 0, 0, 0, 1, 97] ∧
    readRoot .be [8, 0, 0, 0, 1, 97] = .ok (.string (.utf8 [97])) ∧
    NBTStr.utf8 [97] ≠ NBTStr.bytes [97] := by
  refine ⟨?_, rfl, by simp⟩
  rw [writeRoot]
  norm_num [writeString, mutf8Encode, writePayload, writeStringPayload, writeI16bytes,
    beBytes, writeU8bytes, tagId]

/-- Claim C5 (corrected): `String::Utf8(s)` survives a write-then-read round
trip in every encoding (when its Modified-UTF-8 form fits the `i16::MAX`
bound); `String::Bytes(b)` survives only when `b` is NOT valid Modified
UTF-8, and only in the fixed-width encodings — in `NetworkLittleEndian` the
raw form is written with a fixed-width `i16` length but read back with a
varint length. -/
theorem C5_string_fidelity_amended :
    (∀ (e : Enc) (s : List Nat), (∀ c ∈ s, ValidScalar c) →
      (mutf8Encode s).length ≤ 32767 →
      ∃ out, writeRoot e (.string (.utf8 s)) = .ok out ∧
        readRoot e out = .ok (.string (.utf8 s))) ∧
    (∀ (e : Enc) (b : List Nat), e ≠ .nle → mutf8Decode b = none →
      b.length ≤ 32767 → (∀ x ∈ b, x < 256) →
      ∃ out, writeRoot e (.string (.bytes b)) = .ok out ∧
        readRoot e out = .ok (.string (.bytes b))) := by
  constructor
  · intro e s hs hlen
    have hw : writeStringPayload e (.utf8 s) =
        .ok ((match e with
          | .nle => writeUvar (mutf8Encode s).length
          | _ => writeI16bytes e (mutf8Encode s).length) ++ mutf8Encode s) := by
      rw [writeStringPayload]
      exact writeString_ok e s hlen
    have hr := readStringPayload_utf8 e s _ [] hs hlen hw
    rw [List.append_nil] at hr
    exact readRoot_writeRoot_string e _ _ hw hr
  · intro e b he hdec hlen hbytes
    have hw := writeStringPayload_bytes e b hlen hbytes
    have hr := readStringPayload_bytes e b [] he hdec hlen
    rw [List.append_nil] at hr
    exact readRoot_writeRoot_string e _ _ hw hr

/-- Witness for C5: the amended statement at `BigEndian`, for `Utf8("a")`
and for the invalid-UTF-8 raw value `Bytes([0x00,0x00,0x00,0x80])`. -/
theorem C5_string_fidelity_amended_witness :
    (∃ out, writeRoot .be (.string (.utf8 [97])) = .ok out ∧
      readRoot .be out = .ok (.string (.utf8 [97]))) ∧
    (∃ out, writeRoot .be (.string (.bytes [0, 0, 0, 128])) = .ok out ∧
      readRoot .be out = .ok (.string (.bytes [0, 0, 0, 128]))) :=
  ⟨C5_string_fidelity_amended.1 .be [97] (by decide) (by decide),
   C5_string_fidelity_amended.2 .be [0, 0, 0, 128] (by decide) (by rfl)
     (by decide) (by decide)⟩

/-- Claim C6 counterexample: in `NetworkLittleEndian` re-encoding the
fallback value is NOT byte-identical: the payload `04 00 00 00 80` (varint
length 4, then four invalid bytes) decodes to `Bytes([0,0,0,0x80])`, but
re-encoding writes a fixed-width `i16` length, producing `04 00 00 00 00 80`. -/
theorem C6_network_reencode_cex :
    readStringPayload .nle [4, 0, 0, 0, 128] = .ok (.bytes [0, 0, 0, 128], []) ∧
    writeStringPayload .nle (.bytes [0, 0, 0, 128]) = .ok [4, 0, 0, 0, 0, 128] ∧
    ([4, 0, 0, 0, 0, 128] : List Nat) ≠ [4, 0, 0, 0, 128] :=
  ⟨rfl, rfl, by simp⟩

/-- Claim C6 (corrected): whenever the raw string payload is read but is not
valid Modified UTF-8, the read does not fail and yields `String::Bytes`
holding the payload bytes verbatim (in every encoding); re-encoding that
value is byte-identical in the fixed-width encodings (`BigEndian` /
`LittleEndian`), the length prefix being re-read to the same bytes. -/
theorem C6_invalid_string_fallback_amended :
    (∀ (e : Enc) (bs b rest : List Nat),
      readStringRaw e bs = .ok (b, rest) → mutf8Decode b = none →
      readStringPayload e bs = .ok (.bytes b, rest)) ∧
    (∀ (e : Enc) (b rest : List Nat), e ≠ .nle → mutf8Decode b = none →
      b.length ≤ 32767 → (∀ x ∈ b, x < 256) →
      writeStringPayload e (.bytes b) = .ok (writeI16bytes e b.length ++ b) ∧
      readStringPayload e (writeI16bytes e b.length ++ b ++ rest) =
        .ok (.bytes b, rest)) := by
  constructor
  · intro e bs b rest hraw hdec
    rw [readStringPayload, hraw]
    dsimp only
    rw [hdec]
  · intro e b rest he hdec hlen hbytes
    exact ⟨writeStringPayload_bytes e b hlen hbytes,
      readStringPayload_bytes e b rest he hdec hlen⟩

/-- Witness for C6: scenario E in `BigEndian`: payload `00 04 00 00 00 80`
reads to `Bytes([0,0,0,0x80])` and re-encodes to the identical bytes. -/
theorem C6_invalid_string_fallback_amended_witness :
    readStringPayload .be [0, 4, 0, 0, 0, 128] = .ok (.bytes [0, 0, 0, 128], []) ∧
    (writeStringPayload .be (.bytes [0, 0, 0, 128]) =
        .ok (writeI16bytes .be ([0, 0, 0, 128] : List Nat).length ++ [0, 0, 0, 128]) ∧
      readStringPayload .be
          (writeI16bytes .be ([0, 0, 0, 128] : List Nat).length ++ [0, 0, 0, 128] ++ []) =
        .ok (.bytes [0, 0, 0, 128], [])) :=
  ⟨C6_invalid_string_fallback_amended.1 .be [0, 4, 0, 0, 0, 128] [0, 0, 0, 128] []
      (by rfl) (by rfl),
   C6_invalid_string_fallback_amended.2 .be [0, 0, 0, 128] [] (by decide) (by rfl)
      (by decide) (by decide)⟩

/-- Claim C7 (confirmed): writing a list whose element at the first offending
index `i` differs in variant from element 0 (the elements before it being of
the head's variant with successfully-writing payloads) fails with
`UnexpectedTag(type of element 0, type of element i)` at path `[i]`; writing
a homogeneous list whose element payloads all write raises no error. -/
theorem C7_list_heterogeneity :
    (∀ (e : Enc) (x0 : NBTTag) (xs : List NBTTag) (i : Nat),
      i < (x0 :: xs).length →
      (∀ j, j < i → tagId ((x0 :: xs).getD j (.byte 0)) = tagId x0) →
      (∀ j, j < i → ∃ b, writePayload e ((x0 :: xs).getD j (.byte 0)) = .ok b) →
      tagId ((x0 :: xs).getD i (.byte 0)) ≠ tagId x0 →
      writeListPayload e (x0 :: xs) =
        .error ⟨.unexpectedTag (tagType x0) (tagType ((x0 :: xs).getD i (.byte 0))),
          [.element i]⟩) ∧
    (∀ (e : Enc) (x0 : NBTTag) (xs : List NBTTag),
      (∀ v ∈ x0 :: xs, tagId v = tagId x0) →
      (∀ v ∈ x0 :: xs, ∃ b, writePayload e v = .ok b) →
      ∃ b, writeListPayload e (x0 :: xs) = .ok b) := by
  constructor
  · intro e x0 xs i hi hpre hok hbad
    have herr := writeListElems_err e (tagId x0) x0 (x0 :: xs) i 0 hi hpre hok hbad
    rw [writeListPayload]
    rw [herr]
    norm_num
  · intro e x0 xs hall hok
    obtain ⟨b, hb⟩ := writeListElems_ok e (tagId x0) x0 (x0 :: xs) 0 hall hok
    rw [writeListPayload]
    rw [hb]
    exact ⟨_, rfl⟩

/-- Witness for C7: `[Byte(1), Short(2)]` fails with
`UnexpectedTag(Byte, Short)` at path `[1]`; `[Byte(1), Byte(2)]` writes. -/
theorem C7_list_heterogeneity_witness :
    writeListPayload .be [.byte 1, .short 2] =
      .error ⟨.unexpectedTag .Byte .Short, [.element 1]⟩ ∧
    ∃ b, writeListPayload .be [.byte 1, .byte 2] = .ok b := by
  constructor
  · exact C7_list_heterogeneity.1 .be (.byte 1) [.short 2] 1 (by norm_num)
      (fun j hj => by
        have : j = 0 := by omega
        subst this
        rfl)
      (fun j hj => by
        have : j = 0 := by omega
        subst this
        exact ⟨[1], by
          show writePayload .be (.byte 1) = Except.ok [1]
          rw [writePayload]
          rfl⟩)
      (by decide)
  · exact C7_list_heterogeneity.2 .be (.byte 1) [.byte 2]
      (by
        intro v hv
        simp only [List.mem_cons, List.mem_singleton] at hv
        rcases hv with rfl | rfl | h
        · rfl
        · rfl
        · simp at h)
      (by
        intro v hv
        simp only [List.mem_cons, List.mem_singleton] at hv
        rcases hv with rfl | rfl | h
        · exact ⟨[1], by rw [writePayload]; rfl⟩
        · exact ⟨[2], by rw [writePayload]; rfl⟩
        · simp at h)

/-- Claim C10 (confirmed): the root reader's result does not depend on the
root-name bytes (two buffers whose name fields both parse and leave the same
remainder decode identically, for every fuel), and the tag type retains no
name; the root writer always emits the empty root name after the id byte,
whatever the tag. -/
theorem C10_root_name_discarded :
    (∀ (e : Enc) (fuel id : Nat) (b1 b2 rest s1 s2 : List Nat),
      readString e b1 = .ok (s1, rest) → readString e b2 = .ok (s2, rest) →
      readRootF e fuel (id :: b1) = readRootF e fuel (id :: b2)) ∧
    (∀ (e : Enc) (t : NBTTag),
      writeRoot e t = (writePayload e t).map
        (fun p => writeU8bytes (tagId t) ++ emptyNameBytes e ++ p)) := by
  constructor
  · intro e fuel id b1 b2 rest s1 s2 h1 h2
    rw [readRootF, readRootF]
    dsimp only [readU8]
    rw [h1, h2]
  · intro e t
    have hname : writeString e [] = .ok (emptyNameBytes e) := by cases e <;> rfl
    rw [writeRoot, hname]
    cases hp : writePayload e t <;> simp [Except.map]

/-- Witness for C10: buffers with names `"a"` and `""` (same remainder)
decode identically, and the writer's output for `Int(5)` is id byte, empty
name, payload. -/
theorem C10_root_name_discarded_witness :
    readRootF .be 9 (3 :: [0, 1, 97, 9]) = readRootF .be 9 (3 :: [0, 0, 9]) ∧
    writeRoot .be (.int 5) = (writePayload .be (.int 5)).map
      (fun p => writeU8bytes (tagId (.int 5)) ++ emptyNameBytes .be ++ p) :=
  ⟨C10_root_name_discarded.1 .be 9 3 [0, 1, 97, 9] [0, 0, 9] [9] [97] [] rfl rfl,
   C10_root_name_discarded.2 .be (.int 5)⟩

end ZuriNbt
